import Mathlib

/-!
Verification of the `form` URL-encoding library.

This file is a shallow embedding, in Lean 4, of the encoding engine of the
`form` library (`encode.go`, `options.go`).  Go values handled by the
reflective encoder are embedded as the inductive family `Value`; the
Go functions `fieldInfo`, `isEmptyValue`, `encodeValue`, `encodeStruct`,
`encodeSlice`, `encodeArray`, `encodeMap`, `encodeTime`, `findField` and
`Options.Validate` are translated function by function.  Go panics are
modelled as `Except.error` results; `encodeToNode` recovers panics into an
ordinary error return, which in this pure model is the identity on the
`Except` value.  The key-segment escaping of the flattener lives in a file
(`node.go`) that is not part of the sources here; it is modelled from the
specification, as marked on the definitions concerned.
-/

namespace Form

/-- Rune with code point 0, the illegal delimiter/escape value in options. -/
def zeroRune : Char := '\x00'

/-- Options mirrors the Go struct `Options` of options.go, field for field,
including the unexported leading field (an int8 in the source, embedded as
`Int`).  Go `rune` fields are embedded as `Char`. -/
structure Options where
  unexported : Int
  Zeros : Bool
  Tolerant : Bool
  Caseless : Bool
  Delimiter : Char
  Escape : Char
  ImplicitKey : String
  OmittedKey : String
deriving DecidableEq

/-- Options value with every field at its Go zero value; Go's `Options{}`. -/
def zeroOptions : Options :=
  { unexported := 0, Zeros := false, Tolerant := false, Caseless := false
    Delimiter := zeroRune, Escape := zeroRune, ImplicitKey := "", OmittedKey := "" }

/-- The distinct validation error kinds of options.go (`ErrInvalidOptions`,
`ErrInvalidDelimiter`, `ErrInvalidEscape`, `ErrInvalidImplicitKey`,
`ErrInvalidOmittedKey`). -/
inductive OptionsError where
  | invalidOptions
  | invalidDelimiter
  | invalidEscape
  | invalidImplicitKey
  | invalidOmittedKey
deriving DecidableEq

/-- Translation of `Options.Validate` from options.go; `none` is Go's `nil`
error. -/
def Options.Validate (o : Options) : Option OptionsError :=
  if o = zeroOptions then some .invalidOptions
  else if o.Delimiter = zeroRune then some .invalidDelimiter
  else if o.Escape = zeroRune then some .invalidEscape
  else if o.ImplicitKey = "" then some .invalidImplicitKey
  else if o.OmittedKey = "" then some .invalidOmittedKey
  else none

/-- Translation of `Options.IsValid` from options.go. -/
def Options.IsValid (o : Options) : Bool :=
  o.Validate = none

/-- Translation of `MakeStandardOptions` from options.go. -/
def MakeStandardOptions : Options :=
  { unexported := 0, Zeros := false, Tolerant := false, Caseless := false
    Delimiter := '.', Escape := '\\', ImplicitKey := "_", OmittedKey := "-" }

/-- Translation of the package-level `Default` options value. -/
def Default : Options := MakeStandardOptions

/-- Encoder mirrors the Go struct `Encoder` of encode.go: a writer plus an
embedded `Options`.  The `io.Writer` is opaque to the encoding logic and is
embedded as a bare identifier. -/
structure Encoder where
  w : Nat
  opts : Options
deriving DecidableEq

/-- Translation of `Encoder.DelimitWith`: sets the delimiter and returns the
encoder (the in-place pointer update of the source is the functional update
here). -/
def Encoder.DelimitWith (e : Encoder) (r : Char) : Encoder :=
  { e with opts := { e.opts with Delimiter := r } }

/-- Translation of `Encoder.EscapeWith`: sets the escape rune and returns the
encoder. -/
def Encoder.EscapeWith (e : Encoder) (r : Char) : Encoder :=
  { e with opts := { e.opts with Escape := r } }

/-- Translation of `Encoder.KeepZeros`: sets the zero-retention flag and
returns the encoder. -/
def Encoder.KeepZeros (e : Encoder) (z : Bool) : Encoder :=
  { e with opts := { e.opts with Zeros := z } }

/-- Modelled from the spec: the segment escaping of the Key Flattener.  The
function lives in `node.go`, which is not among the sources; per the spec,
each character equal to the configured delimiter or to the configured escape
character is prefixed with the escape character, and every other character
passes through unchanged. -/
def escapeSeg (d e : Char) : List Char → List Char
  | [] => []
  | c :: rest => if c = d ∨ c = e then e :: c :: escapeSeg d e rest else c :: escapeSeg d e rest

/-- Modelled from the spec: the decoder-side inverse of `escapeSeg`; an
escape character consumes the character after it, everything else is kept. -/
def unescapeSeg (e : Char) : List Char → List Char
  | [] => []
  | [c] => [c]
  | c :: c2 :: rest => if c = e then c2 :: unescapeSeg e rest else c :: unescapeSeg e (c2 :: rest)

/-- Scanner deciding whether a key segment contains an occurrence of the
delimiter that is not protected by the escape character: an escape character
skips the character following it, a bare delimiter is a hit. -/
def hasUnescapedDelim (d e : Char) : List Char → Bool
  | [] => false
  | [c] => if c = e then false else decide (c = d)
  | c :: c2 :: rest =>
    if c = e then hasUnescapedDelim d e rest
    else if c = d then true
    else hasUnescapedDelim d e (c2 :: rest)

/-- String form of `escapeSeg`. -/
def escapeString (d e : Char) (s : String) : String :=
  String.mk (escapeSeg d e s.data)

/-- String form of `unescapeSeg`. -/
def unescapeString (e : Char) (s : String) : String :=
  String.mk (unescapeSeg e s.data)

/-- Character-wise lower-casing; stands in for Go's `strings.ToLower` in the
caseless comparisons of `findField` (ASCII-faithful). -/
def strLower (s : String) : String :=
  String.mk (s.data.map Char.toLower)

/-- Translation of `strings.SplitN(tag, ",", 2)` as used by `fieldInfo`: the
tag is cut at the first comma only, the remainder (later commas included)
forms the second piece. -/
def splitN2 (s : String) : List String :=
  match s.data.span (fun c => c ≠ ',') with
  | (a, []) => [String.mk a]
  | (a, _ :: rest) => [String.mk a, String.mk rest]

/-- Broken-down calendar/clock view of a Go `time.Time`, carrying exactly the
components inspected or printed by `encodeTime`: `Year`, `Month`, `Day`,
`Hour`, `Minute`, `Second`, `Nanosecond` and the zone offset (in minutes). -/
structure DateTime where
  year : Int
  month : Nat
  day : Nat
  hour : Nat
  minute : Nat
  second : Nat
  nsec : Nat
  offsetMin : Int
deriving DecidableEq

/-- Components of the zero `time.Time` (January 1, year 1, 00:00:00 UTC),
for which `time.Time.IsZero` reports true. -/
def zeroDateTime : DateTime :=
  { year := 1, month := 1, day := 1, hour := 0, minute := 0, second := 0
    nsec := 0, offsetMin := 0 }

/-- Decimal rendering of `n` left-padded with zeros to width `w`, as Go's
fixed-width time format verbs produce. -/
def padNum (w n : Nat) : String :=
  String.mk (List.replicate (w - (Nat.repr n).length) '0') ++ Nat.repr n

/-- Year rendering for the `2006` verb: four digits, sign in front for
negative years. -/
def fmtYear (y : Int) : String :=
  if y < 0 then "-" ++ padNum 4 (-y).toNat else padNum 4 y.toNat

/-- Removal of trailing zero digits, used for the `.999999999` fractional
verb. -/
def trimZeros (s : String) : String :=
  String.mk (s.data.reverse.dropWhile (fun c => c = '0')).reverse

/-- Fractional-second rendering of the `.999999999` verb: empty for a zero
nanosecond count, else a dot and up to nine digits with trailing zeros
dropped. -/
def fmtFrac (ns : Nat) : String :=
  if ns = 0 then "" else "." ++ trimZeros (padNum 9 ns)

/-- Zone rendering of the `Z07:00` verb: `Z` for UTC, else a signed
hours:minutes offset. -/
def fmtOffset (m : Int) : String :=
  if m = 0 then "Z"
  else (if m < 0 then "-" else "+") ++ padNum 2 ((if m < 0 then -m else m).toNat / 60)
    ++ ":" ++ padNum 2 ((if m < 0 then -m else m).toNat % 60)

/-- Rendering of the Go layout `15:04:05.999999999Z07:00` (clock only). -/
def clockFmt (t : DateTime) : String :=
  padNum 2 t.hour ++ ":" ++ padNum 2 t.minute ++ ":" ++ padNum 2 t.second
    ++ fmtFrac t.nsec ++ fmtOffset t.offsetMin

/-- Rendering of the Go layout `2006-01-02` (date only). -/
def dateFmt (t : DateTime) : String :=
  fmtYear t.year ++ "-" ++ padNum 2 t.month ++ "-" ++ padNum 2 t.day

/-- Rendering of the Go layout `2006-01-02T15:04:05.999999999Z07:00`. -/
def dateClockFmt (t : DateTime) : String :=
  dateFmt t ++ "T" ++ clockFmt t

/-- Translation of `Encoder.encodeTime` from encode.go: time-only when the
date components are at their unset values (year 0, month and day 0 or 1),
date-only when the whole clock (hour, minute, second, nanosecond) is zero,
full date-time otherwise. -/
def encodeTime (t : DateTime) : String :=
  if t.year = 0 ∧ (t.month = 0 ∨ t.month = 1) ∧ (t.day = 0 ∨ t.day = 1) then clockFmt t
  else if t.hour = 0 ∧ t.minute = 0 ∧ t.second = 0 ∧ t.nsec = 0 then dateFmt t
  else dateClockFmt t

/-- Predicate spelling out the first `encodeTime` guard: the date components
are at their zero/unset values. -/
def DateTime.dateUnset (t : DateTime) : Prop :=
  t.year = 0 ∧ (t.month = 0 ∨ t.month = 1) ∧ (t.day = 0 ∨ t.day = 1)

/-- Predicate spelling out the second `encodeTime` guard: all clock
components (hour, minute, second, nanosecond) are zero. -/
def DateTime.clockZero (t : DateTime) : Prop :=
  t.hour = 0 ∧ t.minute = 0 ∧ t.second = 0 ∧ t.nsec = 0

instance (t : DateTime) : Decidable t.dateUnset := by
  unfold DateTime.dateUnset; infer_instance

instance (t : DateTime) : Decidable t.clockZero := by
  unfold DateTime.clockZero; infer_instance

/-- Static description of one Go struct field as `reflect.StructField`
presents it to encode.go: declared name, `PkgPath` (non-empty exactly for
unexported fields), the `form` struct tag (empty when absent), and the
anonymous/embedded marker. -/
structure FieldMeta where
  name : String
  pkgPath : String
  tag : String
  anonymous : Bool
deriving DecidableEq

/- Embedding of the Go values the encoder can receive.  Pointers and
interfaces are both dereference-then-recurse kinds in encode.go and share the
`vPtr`/`vPtrNil` constructors.  A Go byte slice is `vBytes`; a byte array is
an ordinary `vArray` of `vUint` elements, since `encodeArray` does not
special-case it.  `vTime` carries the optional text-marshalling capability of
the concrete type so that the `skipTextMarshalling` exemption is visible;
`vTextMarshaler` is a non-time value whose type implements
`encoding.TextMarshaler`, carrying its kind-specific emptiness and the result
of `MarshalText` (an `Except.error` models a failing call, which encode.go
turns into a panic).  `vFunc`, `vChan`, `vUintptr`, `vUnsafePointer` and
`vInvalid` are the unsupported kinds.  Kinds never exercised by the claims
(floats, complex numbers) are left out of the universe. -/
mutual
inductive Value where
  | vBool (b : Bool)
  | vInt (i : Int)
  | vUint (n : Nat)
  | vUintptr (n : Nat)
  | vString (s : String)
  | vBytes (bs : List Nat)
  | vSlice (elems : Values)
  | vArray (elems : Values)
  | vMap (entries : Entries)
  | vPtrNil
  | vPtr (inner : Value)
  | vStruct (typeName : String) (fields : Fields)
  | vTime (t : DateTime) (m : Option (Except String String))
  | vURL (u : String)
  | vTextMarshaler (typeName : String) (empty : Bool) (res : Except String String)
  | vFunc (typeName : String)
  | vChan (typeName : String)
  | vUnsafePointer
  | vInvalid
inductive Fields where
  | fnil
  | fcons (f : FieldMeta) (v : Value) (rest : Fields)
inductive Values where
  | lnil
  | lcons (v : Value) (rest : Values)
inductive Entries where
  | enil
  | econs (k : Value) (v : Value) (rest : Entries)
end

/-- List view of a `Fields` spine. -/
def Fields.toList : Fields → List (FieldMeta × Value)
  | .fnil => []
  | .fcons f v rest => (f, v) :: rest.toList

/-- List view of a `Values` spine. -/
def Values.toList : Values → List Value
  | .lnil => []
  | .lcons v rest => v :: rest.toList

/-- Byte list as a `Values` spine of `vUint` elements, the embedding of a Go
byte array. -/
def valuesOfBytes : List Nat → Values
  | [] => .lnil
  | b :: rest => .lcons (.vUint b) (valuesOfBytes rest)

/-- Translation of `marshalValue` from encode.go at the type level: only a
value whose type implements `encoding.TextMarshaler` and is not exempted by
`skipTextMarshalling` (`time.Time` and convertibles, hence `vTime` yields
none here whatever capability it carries) produces a result; an
`Except.error` is the marshalling failure that encode.go panics on. -/
def marshalValue : Value → Option (Except String String)
  | .vTextMarshaler _ _ res => some res
  | _ => none

/- Translation of `reflect.DeepEqual(v, reflect.Zero(t))`, the struct branch
of `isEmptyValue`: recursively everything at its zero value.  (The model does
not distinguish nil slices/maps from empty non-nil ones.) -/
mutual
def deepIsZero : Value → Bool
  | .vBool b => !b
  | .vInt i => i = 0
  | .vUint n => n = 0
  | .vUintptr n => n = 0
  | .vString s => s = ""
  | .vBytes bs => bs.isEmpty
  | .vSlice es => match es with | .lnil => true | .lcons _ _ => false
  | .vArray es => valuesDeepZero es
  | .vMap en => match en with | .enil => true | .econs _ _ _ => false
  | .vPtrNil => true
  | .vPtr _ => false
  | .vStruct _ fs => fieldsDeepZero fs
  | .vTime t _ => t = zeroDateTime
  | .vURL u => u = ""
  | .vTextMarshaler _ e _ => e
  | .vFunc _ => false
  | .vChan _ => false
  | .vUnsafePointer => false
  | .vInvalid => false
def fieldsDeepZero : Fields → Bool
  | .fnil => true
  | .fcons _ v rest => deepIsZero v && fieldsDeepZero rest
def valuesDeepZero : Values → Bool
  | .lnil => true
  | .lcons v rest => deepIsZero v && valuesDeepZero rest
end

/-- Translation of `isEmptyValue` from encode.go: length zero for strings,
byte slices, slices, arrays and maps; false/zero for booleans and numbers
(`uintptr` included, via the unsigned case); nil for pointers and interfaces;
`IsZero` for times and `DeepEqual` with the zero value for other structs
(`vURL`, and the kind-specific emptiness flag of a marshaler value); false
for every other kind (functions, channels, unsafe pointers). -/
def isEmptyValue : Value → Bool
  | .vBool b => !b
  | .vInt i => i = 0
  | .vUint n => n = 0
  | .vUintptr n => n = 0
  | .vString s => s = ""
  | .vBytes bs => bs.isEmpty
  | .vSlice es => match es with | .lnil => true | .lcons _ _ => false
  | .vArray es => match es with | .lnil => true | .lcons _ _ => false
  | .vMap en => match en with | .enil => true | .econs _ _ _ => false
  | .vPtrNil => true
  | .vPtr _ => false
  | .vStruct _ fs => fieldsDeepZero fs
  | .vTime t _ => t = zeroDateTime
  | .vURL u => u = ""
  | .vTextMarshaler _ e _ => e
  | .vFunc _ => false
  | .vChan _ => false
  | .vUnsafePointer => false
  | .vInvalid => false

/-- Translation of `fieldInfo` from encode.go: unexported fields map to the
configured omitted key; otherwise the tag's first comma-piece overrides the
declared name when non-empty, and a second piece equal to `omitempty` sets
the omit-empty flag. -/
def fieldInfo (o : Options) (f : FieldMeta) : String × Bool :=
  if f.pkgPath ≠ "" then (o.OmittedKey, false)
  else if f.tag = "" then (f.name, false)
  else
    match splitN2 f.tag with
    | [a] => (if a ≠ "" then a else f.name, false)
    | [a, b] => (if a ≠ "" then a else f.name, b = "omitempty")
    | _ => (f.name, false)

/-- Result of `encodeValue`, the Go `interface{}` holding either a scalar
string or a `node`; a node (a Go `map[string]interface{}`) is embedded as an
association list with unique keys, built through `nodeInsert` and
`nodeDelete` so that overwriting and deleting behave as on the Go map. -/
inductive EncValue where
  | str (s : String)
  | node (entries : List (String × EncValue))

/-- Map-style update of a node: replaces the entry with key `k` in place or
appends a new one (Go `n[k] = v`). -/
def nodeInsert (n : List (String × EncValue)) (k : String) (v : EncValue) :
    List (String × EncValue) :=
  match n with
  | [] => [(k, v)]
  | (k2, v2) :: rest => if k2 = k then (k, v) :: rest else (k2, v2) :: nodeInsert rest k v

/-- Map-style removal of the entry with key `k` (Go `delete(n, k)`). -/
def nodeDelete (n : List (String × EncValue)) (k : String) : List (String × EncValue) :=
  n.filter (fun p => p.1 != k)

/-- Lookup of a key in a node. -/
def nodeGet (n : List (String × EncValue)) (k : String) : Option EncValue :=
  n.lookup k

/-- Whether an encoding result is a node that contains the key `k`. -/
def resultHasKey (r : Except String EncValue) (k : String) : Bool :=
  match r with
  | .ok (.node n) => (nodeGet n k).isSome
  | _ => false

/-- Go `string(v.Bytes())`: the raw bytes of a byte slice reinterpreted as
text (bytes embedded code-point-wise). -/
def stringOfBytes (bs : List Nat) : String :=
  String.mk (bs.map Char.ofNat)

/-- Panic message of `reflect.Value.Type` on the zero `reflect.Value`, which
is what `t := v.Type()` raises when `encodeValue` receives an invalid value
(e.g. the element of a nil pointer or interface). -/
def reflectTypePanicMsg : String :=
  "reflect: call of reflect.Value.Type on zero Value"

/-- Modelled from the spec: `getString` (node.go, not among the sources) as
used on an encoded map key, which per the spec is classified as a scalar
string form; a composite result has no string form and faults. -/
def getStringResult : EncValue → Except String String
  | .str s => .ok s
  | .node _ => .error "unsupported value of composite type"

/- Translation of `Encoder.encodeValue` from encode.go and of the helpers it
dispatches to (`encodeStruct`, `encodeSlice`, `encodeArray`, `encodeMap`,
`encodeTime`, `encodeURL`, `encodeBasic`).  `Except.error` is a Go panic
travelling up to `encodeToNode`.  The source checks, in order: `t := v.Type()`
(panics on an invalid value), `marshalValue` (the two `vTextMarshaler` arms),
then `!e.Zeros && isEmptyValue(v)` (the per-constructor guard below, written
on every remaining arm exactly as the single source check applies to every
kind), then the kind switch.  Dereferencing a nil pointer/interface yields an
invalid value whose recursive `encodeValue` call panics in `v.Type()`.
Unsupported kinds panic with the type name and kind string.  `encodeStruct`
skips a field when its resolved key is the literal `"-"`, removes the key
when the field is omit-empty and empty, and otherwise stores the encoded
field; `encodeMap` keys go through `getString`. -/
mutual
def encodeValue (o : Options) : Value → Except String EncValue
  | .vInvalid => .error reflectTypePanicMsg
  | .vTextMarshaler _ _ (.error msg) => .error msg
  | .vTextMarshaler _ _ (.ok s) => .ok (.str s)
  | .vBool b =>
    if !o.Zeros && isEmptyValue (.vBool b) then .ok (.str "")
    else .ok (.str (if b then "true" else "false"))
  | .vInt i =>
    if !o.Zeros && isEmptyValue (.vInt i) then .ok (.str "")
    else .ok (.str i.repr)
  | .vUint n =>
    if !o.Zeros && isEmptyValue (.vUint n) then .ok (.str "")
    else .ok (.str (Nat.repr n))
  | .vUintptr n =>
    if !o.Zeros && isEmptyValue (.vUintptr n) then .ok (.str "")
    else .error "uintptr has unsupported kind uintptr"
  | .vString s =>
    if !o.Zeros && isEmptyValue (.vString s) then .ok (.str "")
    else .ok (.str s)
  | .vBytes bs =>
    if !o.Zeros && isEmptyValue (.vBytes bs) then .ok (.str "")
    else .ok (.str (stringOfBytes bs))
  | .vSlice es =>
    if !o.Zeros && isEmptyValue (.vSlice es) then .ok (.str "")
    else
      match encodeElems o 0 es with
      | .error msg => .error msg
      | .ok n => .ok (.node n)
  | .vArray es =>
    if !o.Zeros && isEmptyValue (.vArray es) then .ok (.str "")
    else
      match encodeElems o 0 es with
      | .error msg => .error msg
      | .ok n => .ok (.node n)
  | .vMap en =>
    if !o.Zeros && isEmptyValue (.vMap en) then .ok (.str "")
    else
      match encodeMapEntries o [] en with
      | .error msg => .error msg
      | .ok n => .ok (.node n)
  | .vPtrNil =>
    if !o.Zeros && isEmptyValue .vPtrNil then .ok (.str "")
    else .error reflectTypePanicMsg
  | .vPtr w =>
    if !o.Zeros && isEmptyValue (.vPtr w) then .ok (.str "")
    else encodeValue o w
  | .vStruct tn fs =>
    if !o.Zeros && isEmptyValue (.vStruct tn fs) then .ok (.str "")
    else
      match encodeStructFields o [] fs with
      | .error msg => .error msg
      | .ok n => .ok (.node n)
  | .vTime t m =>
    if !o.Zeros && isEmptyValue (.vTime t m) then .ok (.str "")
    else .ok (.str (encodeTime t))
  | .vURL u =>
    if !o.Zeros && isEmptyValue (.vURL u) then .ok (.str "")
    else .ok (.str u)
  | .vFunc tn =>
    if !o.Zeros && isEmptyValue (.vFunc tn) then .ok (.str "")
    else .error (tn ++ " has unsupported kind func")
  | .vChan tn =>
    if !o.Zeros && isEmptyValue (.vChan tn) then .ok (.str "")
    else .error (tn ++ " has unsupported kind chan")
  | .vUnsafePointer =>
    if !o.Zeros && isEmptyValue .vUnsafePointer then .ok (.str "")
    else .error "unsafe.Pointer has unsupported kind unsafe.Pointer"
def encodeStructFields (o : Options) (acc : List (String × EncValue)) :
    Fields → Except String (List (String × EncValue))
  | .fnil => .ok acc
  | .fcons f fv rest =>
    if (fieldInfo o f).1 = "-" then encodeStructFields o acc rest
    else if (fieldInfo o f).2 && isEmptyValue fv then
      encodeStructFields o (nodeDelete acc (fieldInfo o f).1) rest
    else
      match encodeValue o fv with
      | .error msg => .error msg
      | .ok ev => encodeStructFields o (nodeInsert acc (fieldInfo o f).1 ev) rest
def encodeElems (o : Options) (i : Nat) : Values → Except String (List (String × EncValue))
  | .lnil => .ok []
  | .lcons v rest =>
    match encodeValue o v with
    | .error msg => .error msg
    | .ok ev =>
      match encodeElems o (i + 1) rest with
      | .error msg => .error msg
      | .ok n => .ok ((Nat.repr i, ev) :: n)
def encodeMapEntries (o : Options) (acc : List (String × EncValue)) :
    Entries → Except String (List (String × EncValue))
  | .enil => .ok acc
  | .econs kv vv rest =>
    match encodeValue o kv with
    | .error msg => .error msg
    | .ok ek =>
      match getStringResult ek with
      | .error msg => .error msg
      | .ok ks =>
        match encodeValue o vv with
        | .error msg => .error msg
        | .ok ev => encodeMapEntries o (nodeInsert acc ks ev) rest
end

/-- Translation of `Encoder.encodeToNode`, the top-level entry point of an
encode: it runs `encodeValue` under a `recover()` that converts any panic
into an ordinary returned error (already the shape of the pure model), and
wraps the result through `getNode`, which for the tree itself is modelled
from the spec as the identity (node.go is not among the sources; the spec's
flattener consumes a scalar or composite tree uniformly). -/
def encodeToNode (o : Options) (v : Value) : Except String EncValue :=
  encodeValue o v

/-- Entry produced for the byte at index `i` of a byte array (value `b`),
spelling out what `encodeValue` does to a `vUint` element. -/
def byteEntry (o : Options) (p : Nat × Nat) : String × EncValue :=
  (Nat.repr p.1, .str (if !o.Zeros && p.2 = 0 then "" else Nat.repr p.2))

/-- Translation of the dereferencing loop in the embedded-field scan of
`findField`: strip pointer/interface wrappers, succeed on a struct, fail on
anything else (a nil pointer dereferences to an invalid value, which is not a
struct). -/
def derefStruct : Value → Option Fields
  | .vPtr w => derefStruct w
  | .vStruct _ fs => some fs
  | _ => none

/-- Translation of the first loop of `findField` from encode.go: scan the
named fields in declaration order, skipping those whose resolved key is the
configured omitted key; return the first exact match at once; otherwise
record every case-insensitive match into the accumulator (each later match
overwriting the earlier one, as the source assignment
`caseInsensitiveMatch = i` does). -/
def scanNamed (o : Options) (n lowerN : String) :
    Fields → Option Value → Option Value × Option Value
  | .fnil, ci => (none, ci)
  | .fcons f fv rest, ci =>
    if (fieldInfo o f).1 = o.OmittedKey then scanNamed o n lowerN rest ci
    else if n = (fieldInfo o f).1 then (some fv, ci)
    else if o.Caseless = true ∧ lowerN = strLower (fieldInfo o f).1 then
      scanNamed o n lowerN rest (some fv)
    else scanNamed o n lowerN rest ci

/- Translation of the second loop of `findField` (the embedded-field scan)
from encode.go.  `embCheck` is the body of one iteration: dereference the
field value; when a struct is reached, run `findField` on it — that call is
spelled out inline here (first loop, case-insensitive fallback, embedded
scan) so that the recursion is structural; `findField` below is the same
expression, and `embCheck_eq_findField` records the equality. -/
mutual
def scanEmbedded (o : Options) (n : String) : Fields → Option Value
  | .fnil => none
  | .fcons f fv rest =>
    if (fieldInfo o f).1 = o.OmittedKey ∨ f.anonymous = false then scanEmbedded o n rest
    else
      match embCheck o n fv with
      | some ev => some ev
      | none => scanEmbedded o n rest
def embCheck (o : Options) (n : String) : Value → Option Value
  | .vPtr w => embCheck o n w
  | .vStruct _ fs =>
    (match scanNamed o n (if o.Caseless = true then strLower n else "") fs none with
     | (some v, _) => some v
     | (none, some v) => some v
     | (none, none) => scanEmbedded o n fs)
  | _ => none
end

/-- Translation of `findField` from encode.go: exact scan (with
case-insensitive accumulation) over the named fields, then the recorded
case-insensitive match if any, then the depth-first embedded scan. -/
def findField (o : Options) (fs : Fields) (n : String) : Option Value :=
  match scanNamed o n (if o.Caseless = true then strLower n else "") fs none with
  | (some v, _) => some v
  | (none, some v) => some v
  | (none, none) => scanEmbedded o n fs

/-- Whether a field's resolved key differs from the configured omitted key,
making it visible to the scans of `findField`. -/
def visPred (o : Options) (p : FieldMeta × Value) : Bool :=
  decide ((fieldInfo o p.1).1 ≠ o.OmittedKey)

/-- Fields whose resolved key is not the configured omitted key, in
declaration order — the fields the named scans of `findField` consider. -/
def visibleL (o : Options) (l : List (FieldMeta × Value)) : List (FieldMeta × Value) :=
  l.filter (visPred o)

/-- Whether a field's resolved key equals the looked-up name exactly. -/
def exactPred (o : Options) (n : String) (p : FieldMeta × Value) : Bool :=
  decide ((fieldInfo o p.1).1 = n)

/-- Visible fields whose resolved key equals the looked-up name exactly. -/
def exactMatches (o : Options) (n : String) (l : List (FieldMeta × Value)) :
    List (FieldMeta × Value) :=
  (visibleL o l).filter (exactPred o n)

/-- Whether a field's resolved key matches the looked-up name
case-insensitively but not exactly. -/
def ciPred (o : Options) (n : String) (p : FieldMeta × Value) : Bool :=
  decide ((fieldInfo o p.1).1 ≠ n ∧ strLower (fieldInfo o p.1).1 = strLower n)

/-- Visible fields matching the looked-up name case-insensitively but not
exactly; empty when case-insensitive matching is off. -/
def ciMatches (o : Options) (n : String) (l : List (FieldMeta × Value)) :
    List (FieldMeta × Value) :=
  if o.Caseless then (visibleL o l).filter (ciPred o n) else []

/-- Fields of a struct minus those whose resolved key is the literal `"-"` —
exactly the fields `encodeStruct` skips with `continue`. -/
def dropDashFields (o : Options) : Fields → Fields
  | .fnil => .fnil
  | .fcons f v rest =>
    if (fieldInfo o f).1 = "-" then dropDashFields o rest
    else .fcons f v (dropDashFields o rest)

/-! Theorems.  Helper lemmas come first, then one theorem per claim (with a
witness or counterexample where applicable). -/

theorem stringMk_data (s : String) : String.mk s.data = s := by
  cases s; rfl

theorem escapeSeg_ne_nil (d e : Char) (x : Char) (xs : List Char) :
    escapeSeg d e (x :: xs) ≠ [] := by
  simp only [escapeSeg]
  split <;> simp

theorem unescapeSeg_escapeSeg (d e : Char) : (l : List Char) →
    unescapeSeg e (escapeSeg d e l) = l
  | [] => rfl
  | c :: rest => by
    by_cases hc : c = d ∨ c = e
    · simp only [escapeSeg, if_pos hc, unescapeSeg, if_pos rfl]
      exact congrArg (c :: ·) (unescapeSeg_escapeSeg d e rest)
    · have hce : ¬ c = e := fun h => hc (Or.inr h)
      simp only [escapeSeg, if_neg hc]
      cases hrest : escapeSeg d e rest with
      | nil =>
        cases rest with
        | nil => simp [unescapeSeg]
        | cons x xs => exact absurd hrest (escapeSeg_ne_nil d e x xs)
      | cons y ys =>
        simp only [unescapeSeg, if_neg hce]
        rw [← hrest]
        exact congrArg (c :: ·) (unescapeSeg_escapeSeg d e rest)

theorem hasUnescaped_escapeSeg (d e : Char) : (l : List Char) →
    hasUnescapedDelim d e (escapeSeg d e l) = false
  | [] => rfl
  | c :: rest => by
    by_cases hc : c = d ∨ c = e
    · simp only [escapeSeg, if_pos hc, hasUnescapedDelim, if_pos rfl]
      exact hasUnescaped_escapeSeg d e rest
    · have hce : ¬ c = e := fun h => hc (Or.inr h)
      have hcd : ¬ c = d := fun h => hc (Or.inl h)
      simp only [escapeSeg, if_neg hc]
      cases hrest : escapeSeg d e rest with
      | nil => simp [hasUnescapedDelim, hce, hcd]
      | cons y ys =>
        simp only [hasUnescapedDelim, if_neg hce, if_neg hcd]
        rw [← hrest]
        exact hasUnescaped_escapeSeg d e rest

/-- C8: for every string `s` and every configured delimiter/escape pair,
unescaping the escaped form gives back `s`, and the escaped form contains no
unescaped occurrence of the delimiter — so a composite key built from
escaped segments joined by the delimiter splits unambiguously. -/
theorem c8_escape_roundtrip (d e : Char) (s : String) :
    unescapeString e (escapeString d e s) = s
    ∧ hasUnescapedDelim d e (escapeString d e s).data = false := by
  constructor
  · show String.mk (unescapeSeg e (escapeSeg d e s.data)) = s
    rw [unescapeSeg_escapeSeg, stringMk_data]
  · exact hasUnescaped_escapeSeg d e s.data

/-- C9: options validation is total and exhaustive over its error kinds: any
options value with nonzero delimiter and escape and nonempty implicit and
omitted keys validates (whatever the three boolean switches), the fully
zero-valued options fail with the generic error, each individually illegal
field (the others legal) fails with its matching distinct error kind, and
`IsValid` holds exactly when `Validate` returns nil. -/
theorem c9_validate_table :
    (∀ (u : Int) (z t c : Bool) (d e : Char) (ik mk : String),
      d ≠ zeroRune → e ≠ zeroRune → ik ≠ "" → mk ≠ "" →
      Options.Validate ⟨u, z, t, c, d, e, ik, mk⟩ = none)
    ∧ Options.Validate zeroOptions = some .invalidOptions
    ∧ (∀ (u : Int) (z t c : Bool) (e : Char) (ik mk : String),
      e ≠ zeroRune → ik ≠ "" → mk ≠ "" →
      Options.Validate ⟨u, z, t, c, zeroRune, e, ik, mk⟩ = some .invalidDelimiter)
    ∧ (∀ (u : Int) (z t c : Bool) (d : Char) (ik mk : String),
      d ≠ zeroRune → ik ≠ "" → mk ≠ "" →
      Options.Validate ⟨u, z, t, c, d, zeroRune, ik, mk⟩ = some .invalidEscape)
    ∧ (∀ (u : Int) (z t c : Bool) (d e : Char) (mk : String),
      d ≠ zeroRune → e ≠ zeroRune → mk ≠ "" →
      Options.Validate ⟨u, z, t, c, d, e, "", mk⟩ = some .invalidImplicitKey)
    ∧ (∀ (u : Int) (z t c : Bool) (d e : Char) (ik : String),
      d ≠ zeroRune → e ≠ zeroRune → ik ≠ "" →
      Options.Validate ⟨u, z, t, c, d, e, ik, ""⟩ = some .invalidOmittedKey)
    ∧ (∀ o : Options, o.IsValid = true ↔ o.Validate = none) := by
  refine ⟨?_, rfl, ?_, ?_, ?_, ?_, ?_⟩
  · intro u z t c d e ik mk hd he hik hmk
    simp [Options.Validate, zeroOptions, Options.mk.injEq, hd, he, hik, hmk]
  · intro u z t c e ik mk he hik hmk
    simp [Options.Validate, zeroOptions, Options.mk.injEq, he, hik, hmk]
  · intro u z t c d ik mk hd hik hmk
    simp [Options.Validate, zeroOptions, Options.mk.injEq, hd, hik, hmk]
  · intro u z t c d e mk hd he hmk
    simp [Options.Validate, zeroOptions, Options.mk.injEq, hd, he, hmk]
  · intro u z t c d e ik hd he hik
    simp [Options.Validate, zeroOptions, Options.mk.injEq, hd, he, hik]
  · intro o
    simp [Options.IsValid]

/-- Witness for C9 at the concrete rows of the validation table of
options_test.go. -/
theorem c9_validate_table_witness :
    Options.Validate ⟨0, false, false, false, '.', '\\', "_", "-"⟩ = none
    ∧ Options.Validate ⟨0, true, true, true, '.', '\\', "_", "-"⟩ = none
    ∧ Options.Validate ⟨0, false, false, false, zeroRune, '\\', "_", "-"⟩ = some .invalidDelimiter
    ∧ Options.Validate ⟨0, false, false, false, '.', zeroRune, "_", "-"⟩ = some .invalidEscape
    ∧ Options.Validate ⟨0, false, false, false, '.', '\\', "", "-"⟩ = some .invalidImplicitKey
    ∧ Options.Validate ⟨0, false, false, false, '.', '\\', "_", ""⟩ = some .invalidOmittedKey :=
  ⟨c9_validate_table.1 0 false false false '.' '\\' "_" "-"
      (by decide) (by decide) (by decide) (by decide),
    c9_validate_table.1 0 true true true '.' '\\' "_" "-"
      (by decide) (by decide) (by decide) (by decide),
    c9_validate_table.2.2.1 0 false false false '\\' "_" "-"
      (by decide) (by decide) (by decide),
    c9_validate_table.2.2.2.1 0 false false false '.' "_" "-"
      (by decide) (by decide) (by decide),
    c9_validate_table.2.2.2.2.1 0 false false false '.' '\\' "-"
      (by decide) (by decide) (by decide),
    c9_validate_table.2.2.2.2.2.1 0 false false false '.' '\\' "_"
      (by decide) (by decide) (by decide)⟩

/-- C10: each fluent setter of the Encoder changes exactly its one option and
nothing else — the writer and every other option field are untouched — and
the setters compose into a single combined update. -/
theorem c10_fluent_setters (e : Encoder) (r s : Char) (z : Bool) :
    ((e.DelimitWith r).w = e.w ∧ (e.DelimitWith r).opts = { e.opts with Delimiter := r })
    ∧ ((e.EscapeWith s).w = e.w ∧ (e.EscapeWith s).opts = { e.opts with Escape := s })
    ∧ ((e.KeepZeros z).w = e.w ∧ (e.KeepZeros z).opts = { e.opts with Zeros := z })
    ∧ ((e.DelimitWith r).EscapeWith s).KeepZeros z
      = ⟨e.w, { e.opts with Delimiter := r, Escape := s, Zeros := z }⟩ :=
  ⟨⟨rfl, rfl⟩, ⟨rfl, rfl⟩, ⟨rfl, rfl⟩, rfl⟩

/-- C6: a timestamp scalar is rendered in exactly one of three formats, in
this precedence: the time-only layout when the date components are at their
zero/unset values; else the date-only layout `YYYY-MM-DD` when hour, minute,
second and nanosecond are all zero; else the full date-time layout (both
clock layouts carrying fractional seconds to nanosecond precision and the
UTC offset). -/
theorem c6_time_format_choice (t : DateTime) :
    (t.dateUnset ∧ encodeTime t = clockFmt t)
    ∨ (¬ t.dateUnset ∧ t.clockZero ∧ encodeTime t = dateFmt t)
    ∨ (¬ t.dateUnset ∧ ¬ t.clockZero ∧ encodeTime t = dateClockFmt t) := by
  by_cases h1 : t.year = 0 ∧ (t.month = 0 ∨ t.month = 1) ∧ (t.day = 0 ∨ t.day = 1)
  · exact Or.inl ⟨h1, by unfold encodeTime; rw [if_pos h1]⟩
  · by_cases h2 : t.hour = 0 ∧ t.minute = 0 ∧ t.second = 0 ∧ t.nsec = 0
    · exact Or.inr (Or.inl ⟨h1, h2, by unfold encodeTime; rw [if_neg h1, if_pos h2]⟩)
    · exact Or.inr (Or.inr ⟨h1, h2, by unfold encodeTime; rw [if_neg h1, if_neg h2]⟩)

/-- C7: a value exposing the text-marshalling capability (and not convertible
to the exempted time type — a `vTextMarshaler` by construction) is marshalled
before any other classification rule, independently of its emptiness and of
the zeros option, with a marshalling failure aborting the encode; the
capability carried by a time-convertible value is ignored; and a failing
marshaler nested in a struct aborts the whole encode through the entry
point. -/
theorem c7_marshaler_first :
    (∀ (o : Options) (tn : String) (emp : Bool) (res : Except String String),
      encodeValue o (.vTextMarshaler tn emp res)
        = match res with | .ok s => .ok (.str s) | .error msg => .error msg)
    ∧ (∀ (o : Options) (t : DateTime) (m : Option (Except String String)),
      encodeValue o (.vTime t m) = encodeValue o (.vTime t none))
    ∧ (∀ (o : Options) (sn tn msg : String),
      encodeToNode o (.vStruct sn (.fcons ⟨"F", "", "", false⟩
          (.vTextMarshaler tn false (.error msg)) .fnil)) = .error msg) := by
  refine ⟨?_, ?_, ?_⟩
  · intro o tn emp res
    cases res <;> rfl
  · intro o t m
    rfl
  · intro o sn tn msg
    simp [encodeToNode, encodeValue, isEmptyValue, fieldsDeepZero, deepIsZero,
      encodeStructFields, fieldInfo]

/-- C1 (amended): in a struct that is not wholly zero-valued, an integer
field at 0 encodes under its key as the empty string when zeros is off and
as the literal `"0"` when zeros is on, and with an `omitempty` tag the key is
absent from the node for either zeros setting; a wholly zero-valued struct
under zeros-off, however, collapses to the empty-string scalar before its
fields are ever visited, so no key appears at all. -/
theorem c1_zero_int_field (z : Bool) (nm : String) (h1 : nm ≠ "-") (h2 : nm ≠ "G") :
    encodeValue { Default with Zeros := z }
        (.vStruct "S" (.fcons ⟨nm, "", "", false⟩ (.vInt 0)
          (.fcons ⟨"G", "", "", false⟩ (.vString "x") .fnil)))
      = .ok (.node [(nm, .str (if z then "0" else "")), ("G", .str "x")])
    ∧ encodeValue { Default with Zeros := z }
        (.vStruct "S" (.fcons ⟨nm, "", ",omitempty", false⟩ (.vInt 0)
          (.fcons ⟨"G", "", "", false⟩ (.vString "x") .fnil)))
      = .ok (.node [("G", .str "x")])
    ∧ (z = false → encodeValue { Default with Zeros := z }
        (.vStruct "S" (.fcons ⟨nm, "", "", false⟩ (.vInt 0) .fnil)) = .ok (.str ""))
    ∧ (z = true → encodeValue { Default with Zeros := z }
        (.vStruct "S" (.fcons ⟨nm, "", "", false⟩ (.vInt 0) .fnil))
      = .ok (.node [(nm, .str "0")])) := by
  cases z <;>
    refine ⟨?_, ?_, ?_, ?_⟩ <;>
    simp [encodeValue, encodeStructFields, fieldInfo, isEmptyValue, fieldsDeepZero,
      deepIsZero, nodeInsert, nodeDelete, splitN2, Default, MakeStandardOptions, h1, h2,
      show Int.repr 0 = "0" from rfl]

/-- Witness for C1 at the field name `F`. -/
theorem c1_zero_int_field_witness :
    encodeValue Default
        (.vStruct "S" (.fcons ⟨"F", "", "", false⟩ (.vInt 0)
          (.fcons ⟨"G", "", "", false⟩ (.vString "x") .fnil)))
      = .ok (.node [("F", .str ""), ("G", .str "x")])
    ∧ encodeValue Default
        (.vStruct "S" (.fcons ⟨"F", "", ",omitempty", false⟩ (.vInt 0)
          (.fcons ⟨"G", "", "", false⟩ (.vString "x") .fnil)))
      = .ok (.node [("G", .str "x")]) := by
  have h := c1_zero_int_field false "F" (by decide) (by decide)
  exact ⟨h.1, h.2.1⟩

/-- Counterexample to C1 as stated: for the struct whose only field is the
integer at 0, encoding with zeros off yields the bare empty-string scalar —
the field's key is not present at all, where the claim requires the key with
an empty-string value. -/
theorem c1_counterexample :
    encodeValue Default (.vStruct "S" (.fcons ⟨"F", "", "", false⟩ (.vInt 0) .fnil))
      = .ok (.str "")
    ∧ resultHasKey (encodeValue Default
        (.vStruct "S" (.fcons ⟨"F", "", "", false⟩ (.vInt 0) .fnil))) "F" = false :=
  ⟨rfl, rfl⟩

/-- C2 (amended): function, channel and unsafe-pointer subvalues always abort
the encode through the entry point with an error naming the offending type
and kind; a `uintptr` aborts it exactly when zeros is on or its value is
nonzero — a zero `uintptr` under zeros-off is treated as an empty value and
silently encodes as the empty string; an invalid value aborts with the
reflect runtime message, which names no type; and such an error from inside a
struct fails the encode as a whole, surfacing as an ordinary error return. -/
theorem c2_unsupported_kinds :
    (∀ (o : Options) (tn : String),
      encodeToNode o (.vFunc tn) = .error (tn ++ " has unsupported kind func"))
    ∧ (∀ (o : Options) (tn : String),
      encodeToNode o (.vChan tn) = .error (tn ++ " has unsupported kind chan"))
    ∧ (∀ o : Options, encodeToNode o .vUnsafePointer
        = .error "unsafe.Pointer has unsupported kind unsafe.Pointer")
    ∧ (∀ (o : Options) (n : Nat),
      encodeToNode o (.vUintptr n)
        = if o.Zeros = false ∧ n = 0 then .ok (.str "")
          else .error "uintptr has unsupported kind uintptr")
    ∧ (∀ o : Options, encodeToNode o .vInvalid = .error reflectTypePanicMsg)
    ∧ (∀ (o : Options) (sn tn : String),
      encodeToNode o (.vStruct sn (.fcons ⟨"A", "", "", false⟩ (.vChan tn) .fnil))
        = .error (tn ++ " has unsupported kind chan")) := by
  refine ⟨?_, ?_, ?_, ?_, ?_, ?_⟩
  · intro o tn; simp [encodeToNode, encodeValue, isEmptyValue]
  · intro o tn; simp [encodeToNode, encodeValue, isEmptyValue]
  · intro o; simp [encodeToNode, encodeValue, isEmptyValue]
  · intro o n
    cases hz : o.Zeros <;> by_cases hn : n = 0 <;>
      simp [encodeToNode, encodeValue, isEmptyValue, hz, hn]
  · intro o; rfl
  · intro o sn tn
    simp [encodeToNode, encodeValue, isEmptyValue, fieldsDeepZero, deepIsZero,
      encodeStructFields, fieldInfo]

/-- Counterexample to C2 as stated: a struct containing a `uintptr` subvalue
at 0 encodes successfully under the default options (the zero `uintptr` is
elided to the empty string), where the claim requires the whole encode to
fail with an error. -/
theorem c2_counterexample :
    encodeToNode Default (.vStruct "S" (.fcons ⟨"A", "", "", false⟩ (.vUintptr 0)
        (.fcons ⟨"B", "", "", false⟩ (.vString "x") .fnil)))
      = .ok (.node [("A", .str ""), ("B", .str "x")]) := rfl

theorem structFields_dropDash (o : Options) : (fs : Fields) →
    ∀ acc, encodeStructFields o acc fs = encodeStructFields o acc (dropDashFields o fs)
  | .fnil, _ => rfl
  | .fcons f v rest, acc => by
    by_cases h : (fieldInfo o f).1 = "-"
    · simp only [encodeStructFields, dropDashFields, if_pos h]
      exact structFields_dropDash o rest acc
    · simp only [encodeStructFields, dropDashFields, if_neg h]
      by_cases h2 : ((fieldInfo o f).2 && isEmptyValue v) = true
      · simp only [if_pos h2]
        exact structFields_dropDash o rest _
      · simp only [if_neg h2]
        cases encodeValue o v with
        | error msg => rfl
        | ok ev => exact structFields_dropDash o rest _

/-- C4 (amended): `encodeStruct` drops exactly the fields whose resolved key
is the literal `"-"` (not the configured omitted-key sentinel), independent
of the omit-empty flag; private fields resolve to the configured omitted key,
and hence are dropped whenever that key is the default `"-"` — but not for
other configured values. -/
theorem c4_omitted_fields :
    (∀ (o : Options) (acc : List (String × EncValue)) (fs : Fields),
      encodeStructFields o acc fs = encodeStructFields o acc (dropDashFields o fs))
    ∧ (∀ (o : Options) (f : FieldMeta),
      f.pkgPath ≠ "" → fieldInfo o f = (o.OmittedKey, false))
    ∧ (∀ (o : Options) (f : FieldMeta) (v : Value) (fs : Fields)
        (acc : List (String × EncValue)),
      f.pkgPath ≠ "" → o.OmittedKey = "-" →
      encodeStructFields o acc (.fcons f v fs) = encodeStructFields o acc fs) := by
  refine ⟨fun o acc fs => structFields_dropDash o fs acc, ?_, ?_⟩
  · intro o f h
    simp [fieldInfo, h]
  · intro o f v fs acc h hm
    have hk : (fieldInfo o f).1 = "-" := by simp [fieldInfo, h, hm]
    simp only [encodeStructFields, if_pos hk]

/-- Witness for C4 at a concrete private field under the default options. -/
theorem c4_omitted_fields_witness :
    fieldInfo Default ⟨"priv", "pkg", "", false⟩ = (Default.OmittedKey, false)
    ∧ encodeStructFields Default [] (.fcons ⟨"priv", "pkg", "", false⟩ (.vString "s") .fnil)
      = encodeStructFields Default [] .fnil :=
  ⟨c4_omitted_fields.2.1 Default ⟨"priv", "pkg", "", false⟩ (by decide),
    c4_omitted_fields.2.2 Default ⟨"priv", "pkg", "", false⟩ (.vString "s") .fnil []
      (by decide) rfl⟩

/-- Counterexample to C4 as stated: with the omitted key configured as `"X"`,
a field whose tag name is that sentinel is not dropped — its key appears in
the encoded node, because `encodeStruct` compares against the literal `"-"`
rather than the configured sentinel. -/
theorem c4_counterexample :
    resultHasKey (encodeValue { Default with OmittedKey := "X" }
      (.vStruct "S" (.fcons ⟨"F", "", "X", false⟩ (.vString "hi") .fnil))) "X" = true
    ∧ encodeValue { Default with OmittedKey := "X" }
        (.vStruct "S" (.fcons ⟨"F", "", "X", false⟩ (.vString "hi") .fnil))
      = .ok (.node [("X", .str "hi")]) :=
  ⟨rfl, rfl⟩

theorem encodeElems_bytes (o : Options) : (bs : List Nat) → ∀ i,
    encodeElems o i (valuesOfBytes bs) = .ok ((List.enumFrom i bs).map (byteEntry o))
  | [], _ => rfl
  | b :: rest, i => by
    by_cases hb : (!o.Zeros && isEmptyValue (Value.vUint b)) = true
    · have hb2 : o.Zeros = false ∧ b = 0 := by
        simpa [isEmptyValue] using hb
      simp [valuesOfBytes, encodeElems, encodeValue, hb, encodeElems_bytes o rest (i + 1),
        List.enumFrom, byteEntry, hb2.1, hb2.2, isEmptyValue]
    · have hb2 : ¬ (o.Zeros = false ∧ b = 0) := by
        simpa [isEmptyValue] using hb
      simp only [valuesOfBytes, encodeElems, encodeValue, if_neg hb,
        encodeElems_bytes o rest (i + 1), List.enumFrom, List.map, byteEntry]
      simp [isEmptyValue] at hb
      by_cases hz : o.Zeros = false
      · simp [hz, hb hz]
      · simp [show o.Zeros = true from by revert hz; cases o.Zeros <;> simp]

/-- C5 (amended): a byte slice always encodes to the single string scalar of
its raw bytes, for every zeros setting and also when empty (the elided empty
value and the reinterpreted empty byte string coincide); a byte array,
however, is not special-cased by `encodeArray` and expands into indexed
entries, one per byte. -/
theorem c5_byte_sequences :
    (∀ (o : Options) (bs : List Nat),
      encodeValue o (.vBytes bs) = .ok (.str (stringOfBytes bs)))
    ∧ (∀ (o : Options) (bs : List Nat),
      encodeValue o (.vArray (valuesOfBytes bs))
        = if o.Zeros = false ∧ bs = [] then .ok (.str "")
          else .ok (.node (bs.enum.map (byteEntry o)))) := by
  constructor
  · intro o bs
    cases bs with
    | nil => cases hz : o.Zeros <;> simp [encodeValue, isEmptyValue, hz, stringOfBytes]
    | cons b rest => simp [encodeValue, isEmptyValue]
  · intro o bs
    cases bs with
    | nil =>
      cases hz : o.Zeros <;>
        simp [encodeValue, isEmptyValue, hz, valuesOfBytes, encodeElems, List.enum]
    | cons b rest =>
      have hne : ¬ (o.Zeros = false ∧ b :: rest = []) := by simp
      have hg : isEmptyValue (Value.vArray (valuesOfBytes (b :: rest))) = false := rfl
      rw [if_neg hne]
      simp only [encodeValue]
      rw [hg]
      simp only [Bool.and_false]
      rw [if_neg (by simp : ¬ (false = true))]
      rw [encodeElems_bytes o (b :: rest) 0]
      rfl

theorem visibleL_cons (o : Options) (f : FieldMeta) (fv : Value)
    (l : List (FieldMeta × Value)) :
    visibleL o ((f, fv) :: l)
      = if (fieldInfo o f).1 = o.OmittedKey then visibleL o l
        else (f, fv) :: visibleL o l := by
  by_cases hk : (fieldInfo o f).1 = o.OmittedKey
  · have hn : ¬ (visPred o (f, fv) = true) := by simp [visPred, hk]
    rw [if_pos hk]
    exact List.filter_cons_of_neg hn
  · have hp : visPred o (f, fv) = true := by simp [visPred, hk]
    rw [if_neg hk]
    exact List.filter_cons_of_pos hp

theorem exactMatches_cons (o : Options) (n : String) (f : FieldMeta) (fv : Value)
    (l : List (FieldMeta × Value)) :
    exactMatches o n ((f, fv) :: l)
      = if (fieldInfo o f).1 ≠ o.OmittedKey ∧ (fieldInfo o f).1 = n
        then (f, fv) :: exactMatches o n l else exactMatches o n l := by
  unfold exactMatches
  rw [visibleL_cons]
  by_cases hk : (fieldInfo o f).1 = o.OmittedKey
  · rw [if_pos hk, if_neg (fun hx => hx.1 hk)]
  · rw [if_neg hk]
    by_cases he : (fieldInfo o f).1 = n
    · have hp : exactPred o n (f, fv) = true := by simp [exactPred, he]
      rw [List.filter_cons_of_pos hp, if_pos (And.intro hk he)]
    · have hn : ¬ (exactPred o n (f, fv) = true) := by simp [exactPred, he]
      rw [List.filter_cons_of_neg hn, if_neg (fun hx => he hx.2)]

theorem ciMatches_off (o : Options) (n : String) (l : List (FieldMeta × Value))
    (hcl : o.Caseless = false) : ciMatches o n l = [] := by
  simp [ciMatches, hcl]

theorem ciMatches_cons (o : Options) (n : String) (f : FieldMeta) (fv : Value)
    (l : List (FieldMeta × Value)) (hcl : o.Caseless = true) :
    ciMatches o n ((f, fv) :: l)
      = if (fieldInfo o f).1 ≠ o.OmittedKey ∧ (fieldInfo o f).1 ≠ n
          ∧ strLower (fieldInfo o f).1 = strLower n
        then (f, fv) :: ciMatches o n l else ciMatches o n l := by
  unfold ciMatches
  simp only [hcl, if_true]
  rw [visibleL_cons]
  by_cases hk : (fieldInfo o f).1 = o.OmittedKey
  · rw [if_pos hk, if_neg (fun hx => hx.1 hk)]
  · rw [if_neg hk]
    by_cases hcc : (fieldInfo o f).1 ≠ n ∧ strLower (fieldInfo o f).1 = strLower n
    · have hcp : ciPred o n (f, fv) = true := by
        simpa [ciPred] using hcc
      rw [List.filter_cons_of_pos hcp, if_pos (And.intro hk hcc)]
    · have hcn : ¬ (ciPred o n (f, fv) = true) := by
        simpa [ciPred] using hcc
      rw [List.filter_cons_of_neg hcn, if_neg (fun hx => hcc hx.2)]

theorem scanNamed_exact (o : Options) (n lowerN : String) : (fs : Fields) →
    ∀ ci p, (exactMatches o n fs.toList).head? = some p →
    (scanNamed o n lowerN fs ci).1 = some p.2
  | .fnil => by
    intro ci p h
    simp [Fields.toList, exactMatches, visibleL] at h
  | .fcons f fv rest => by
    intro ci p h
    rw [show (Fields.fcons f fv rest).toList = (f, fv) :: rest.toList from rfl,
      exactMatches_cons] at h
    by_cases hk : (fieldInfo o f).1 = o.OmittedKey
    · rw [if_neg (fun hx => hx.1 hk)] at h
      simp only [scanNamed, if_pos hk]
      exact scanNamed_exact o n lowerN rest ci p h
    · by_cases he : (fieldInfo o f).1 = n
      · rw [if_pos ⟨hk, he⟩] at h
        simp only [List.head?, Option.some.injEq] at h
        subst h
        simp only [scanNamed, if_neg hk, if_pos he.symm]
      · rw [if_neg (fun hx => he hx.2)] at h
        simp only [scanNamed, if_neg hk,
          if_neg (fun hx : n = (fieldInfo o f).1 => he hx.symm)]
        by_cases hci : o.Caseless = true ∧ lowerN = strLower (fieldInfo o f).1
        · rw [if_pos hci]
          exact scanNamed_exact o n lowerN rest (some fv) p h
        · rw [if_neg hci]
          exact scanNamed_exact o n lowerN rest ci p h

theorem lastConsSnd_or {α β : Type} (a : α × β) (l : List (α × β)) (c : Option β) :
    ((a :: l).getLast?.map Prod.snd).or c = (l.getLast?.map Prod.snd).or (some a.2) := by
  rw [List.getLast?_cons]
  cases l.getLast? with
  | none => rfl
  | some q => rfl

theorem scanNamed_noExact (o : Options) (n lowerN : String)
    (hlw : lowerN = if o.Caseless = true then strLower n else "") : (fs : Fields) → ∀ ci,
    exactMatches o n fs.toList = [] →
    scanNamed o n lowerN fs ci
      = (none, ((ciMatches o n fs.toList).getLast?.map Prod.snd).or ci)
  | .fnil => by
    intro ci _
    by_cases hc : o.Caseless <;>
      simp [scanNamed, Fields.toList, ciMatches, visibleL, hc]
  | .fcons f fv rest => by
    intro ci hE
    rw [show (Fields.fcons f fv rest).toList = (f, fv) :: rest.toList from rfl] at hE ⊢
    rw [exactMatches_cons] at hE
    by_cases hk : (fieldInfo o f).1 = o.OmittedKey
    · rw [if_neg (fun hx => hx.1 hk)] at hE
      have hcm : ciMatches o n ((f, fv) :: rest.toList) = ciMatches o n rest.toList := by
        cases hcl : o.Caseless with
        | false => rw [ciMatches_off o n _ hcl, ciMatches_off o n _ hcl]
        | true => rw [ciMatches_cons o n f fv rest.toList hcl, if_neg (fun hx => hx.1 hk)]
      rw [hcm]
      simp only [scanNamed, if_pos hk]
      exact scanNamed_noExact o n lowerN hlw rest ci hE
    · have he : ¬ (fieldInfo o f).1 = n := by
        intro hx
        rw [if_pos (And.intro hk hx)] at hE
        simp at hE
      rw [if_neg (fun hx => he hx.2)] at hE
      simp only [scanNamed, if_neg hk,
        if_neg (fun hx : n = (fieldInfo o f).1 => he hx.symm)]
      by_cases hci : o.Caseless = true ∧ lowerN = strLower (fieldInfo o f).1
      · have hcl : o.Caseless = true := hci.1
        have hlo : strLower (fieldInfo o f).1 = strLower n := by
          have h2 := hci.2
          rw [hlw, if_pos hcl] at h2
          exact h2.symm
        rw [if_pos hci]
        rw [ciMatches_cons o n f fv rest.toList hcl,
          if_pos (And.intro hk (And.intro he hlo))]
        rw [scanNamed_noExact o n lowerN hlw rest (some fv) hE, lastConsSnd_or]
      · have hcm : ciMatches o n ((f, fv) :: rest.toList) = ciMatches o n rest.toList := by
          cases hcl : o.Caseless with
          | false => rw [ciMatches_off o n _ hcl, ciMatches_off o n _ hcl]
          | true =>
            have hlo : ¬ strLower (fieldInfo o f).1 = strLower n := by
              intro hx
              exact hci (And.intro hcl (by rw [hlw, if_pos hcl]; exact hx.symm))
            rw [ciMatches_cons o n f fv rest.toList hcl, if_neg (fun hx => hlo hx.2.2)]
        rw [if_neg hci, hcm]
        exact scanNamed_noExact o n lowerN hlw rest ci hE

theorem embCheck_deref (o : Options) (n : String) : (v : Value) →
    embCheck o n v = (derefStruct v).bind (fun fs2 => findField o fs2 n)
  | .vPtr w => by
    have ih := embCheck_deref o n w
    show embCheck o n w = _
    rw [ih]
    rfl
  | .vStruct _ _ => rfl
  | .vBool _ => rfl
  | .vInt _ => rfl
  | .vUint _ => rfl
  | .vUintptr _ => rfl
  | .vString _ => rfl
  | .vBytes _ => rfl
  | .vSlice _ => rfl
  | .vArray _ => rfl
  | .vMap _ => rfl
  | .vPtrNil => rfl
  | .vTime _ _ => rfl
  | .vURL _ => rfl
  | .vTextMarshaler _ _ _ => rfl
  | .vFunc _ => rfl
  | .vChan _ => rfl
  | .vUnsafePointer => rfl
  | .vInvalid => rfl

theorem scanEmbedded_model (o : Options) (n : String) : (fs : Fields) →
    scanEmbedded o n fs
      = fs.toList.findSome? (fun p =>
          if (fieldInfo o p.1).1 = o.OmittedKey ∨ p.1.anonymous = false then none
          else (derefStruct p.2).bind (fun fs2 => findField o fs2 n))
  | .fnil => rfl
  | .fcons f fv rest => by
    rw [show (Fields.fcons f fv rest).toList = (f, fv) :: rest.toList from rfl,
      List.findSome?_cons]
    by_cases h : (fieldInfo o f).1 = o.OmittedKey ∨ f.anonymous = false
    · simp only [scanEmbedded, if_pos h]
      rw [scanEmbedded_model o n rest]
    · simp only [scanEmbedded, if_neg h, embCheck_deref o n fv]
      cases hd : (derefStruct fv).bind (fun fs2 => findField o fs2 n) with
      | some ev => rfl
      | none => rw [scanEmbedded_model o n rest]

/-- C3 (amended): `findField` resolves a name by (1) the first exact match
among visible (non-omitted) fields in declaration order, else (2) when
case-insensitive matching is on, the last — not the first — case-insensitive
match in declaration order (each later match overwrites the recorded one),
else (3) the depth-first recursive search through embedded/anonymous struct
fields, first find wins; in particular an outer `Foo` beats an embedded
`Foo`, and with caseless matching a lookup for `name` resolves to a sole
field `Name`. -/
theorem c3_find_field_order :
    (∀ (o : Options) (fs : Fields) (n : String),
      findField o fs n =
        match (exactMatches o n fs.toList).head? with
        | some p => some p.2
        | none =>
          match (ciMatches o n fs.toList).getLast? with
          | some p => some p.2
          | none =>
            fs.toList.findSome? (fun p =>
              if (fieldInfo o p.1).1 = o.OmittedKey ∨ p.1.anonymous = false then none
              else (derefStruct p.2).bind (fun fs2 => findField o fs2 n)))
    ∧ findField Default
        (.fcons ⟨"Foo", "", "", false⟩ (.vString "outer")
          (.fcons ⟨"Emb", "", "", true⟩
            (.vStruct "E" (.fcons ⟨"Foo", "", "", false⟩ (.vString "inner") .fnil)) .fnil))
        "Foo" = some (.vString "outer")
    ∧ findField { Default with Caseless := true }
        (.fcons ⟨"Name", "", "", false⟩ (.vString "v") .fnil) "name"
      = some (.vString "v") := by
  refine ⟨?_, rfl, rfl⟩
  intro o fs n
  cases hE : exactMatches o n fs.toList with
  | cons p ps =>
    have h1 := scanNamed_exact o n (if o.Caseless = true then strLower n else "") fs none p
      (by rw [hE]; rfl)
    unfold findField
    rcases hsn : scanNamed o n (if o.Caseless = true then strLower n else "") fs none
      with ⟨a, b⟩
    rw [hsn] at h1
    simp only at h1
    rw [h1]
    rfl
  | nil =>
    have h1 := scanNamed_noExact o n (if o.Caseless = true then strLower n else "") rfl
      fs none hE
    unfold findField
    rw [h1, Option.or_none]
    cases hci : (ciMatches o n fs.toList).getLast? with
    | some q => rfl
    | none =>
      exact scanEmbedded_model o n fs

/-- Counterexample to C3 as stated: with caseless matching on and the two
fields `Name` then `NAME`, a lookup for `name` returns the value of `NAME`,
the last case-insensitive match in declaration order — not the value of
`Name`, the first, as the claim requires. -/
theorem c3_counterexample :
    findField { Default with Caseless := true }
        (.fcons ⟨"Name", "", "", false⟩ (.vString "a")
          (.fcons ⟨"NAME", "", "", false⟩ (.vString "b") .fnil)) "name"
      = some (.vString "b")
    ∧ findField { Default with Caseless := true }
        (.fcons ⟨"Name", "", "", false⟩ (.vString "a")
          (.fcons ⟨"NAME", "", "", false⟩ (.vString "b") .fnil)) "name"
      ≠ some (.vString "a") := by
  refine ⟨rfl, fun h => ?_⟩
  rw [show findField { Default with Caseless := true }
        (.fcons ⟨"Name", "", "", false⟩ (.vString "a")
          (.fcons ⟨"NAME", "", "", false⟩ (.vString "b") .fnil)) "name"
      = some (.vString "b") from rfl] at h
  injection h with h3
  injection h3 with h4
  exact absurd h4 (by decide)

/-- Counterexample to C5 as stated: the byte array `[104, 105]` encodes to a
composite of two indexed entries, not to the single scalar `"hi"`. -/
theorem c5_counterexample :
    encodeValue Default (.vArray (valuesOfBytes [104, 105]))
      = .ok (.node [("0", .str "104"), ("1", .str "105")])
    ∧ encodeValue Default (.vArray (valuesOfBytes [104, 105])) ≠ .ok (.str "hi") := by
  refine ⟨rfl, ?_⟩
  intro h
  rw [show encodeValue Default (.vArray (valuesOfBytes [104, 105]))
      = .ok (.node [("0", .str "104"), ("1", .str "105")]) from rfl] at h
  injection h with h2
  exact EncValue.noConfusion h2

end Form
